import Mathlib

/-!
Verification of the pynmd fixed-width writers.

This file is a shallow embedding of the two writer modules of the repository:

* `pynmd/models/swan/pre/swan_pre.py` — `write_boundary_spec`
* `pynmd/models/xbeach/pre/xbeach_pre.py` — `write_bathy`, `write_boundary_spec`

Python strings are modelled as `List Char` and files as the list of characters
written to them.  Numeric array values are modelled as rationals; Python's
fixed-width float directive `'%w.df' % v` is modelled by rounding `v * 10 ^ d`
to an integer (`decRound`) and rendering that scaled integer with `d` decimal
digits right-justified to minimum width `w` (`render`).  The tie-breaking rule
of the rounding (here: half away from floor) is irrelevant to every statement
below; all concrete inputs used are exact at the written precision.
-/

/-! ### Decimal digit strings -/

/-- Fuel-driven base-10 rendering of a natural number, most significant digit
first.  The fuel is always instantiated with `n + 1`, which is sufficient. -/
def natToDigitsAux : Nat → Nat → List Char
  | 0, _ => []
  | fuel + 1, n =>
    if n < 10 then [Nat.digitChar n]
    else natToDigitsAux fuel (n / 10) ++ [Nat.digitChar (n % 10)]

/-- Decimal digits of a natural number (e.g. `1234 ↦ ['1','2','3','4']`). -/
def natToDigits (n : Nat) : List Char := natToDigitsAux (n + 1) n

theorem natToDigitsAux_succ (fuel n : Nat) :
    natToDigitsAux (fuel + 1) n = if n < 10 then [Nat.digitChar n]
      else natToDigitsAux fuel (n / 10) ++ [Nat.digitChar (n % 10)] := rfl

theorem natToDigitsAux_fuel (n : Nat) : ∀ f g, n < f → n < g →
    natToDigitsAux f n = natToDigitsAux g n := by
  induction n using Nat.strongRecOn with
  | _ n ih =>
    intro f g hf hg
    match f, g with
    | f + 1, g + 1 =>
      rw [natToDigitsAux_succ, natToDigitsAux_succ]
      by_cases h10 : n < 10
      · simp [h10]
      · have hd : n / 10 < n := Nat.div_lt_self (by omega) (by omega)
        rw [if_neg h10, if_neg h10, ih (n / 10) hd f g (by omega) (by omega)]

theorem natToDigits_eq (n : Nat) :
    natToDigits n = if n < 10 then [Nat.digitChar n]
      else natToDigits (n / 10) ++ [Nat.digitChar (n % 10)] := by
  by_cases h : n < 10
  · simp [natToDigits, natToDigitsAux_succ, h]
  · have hd : n / 10 < n := Nat.div_lt_self (by omega) (by omega)
    rw [natToDigits, natToDigitsAux_succ, if_neg h, natToDigits,
      natToDigitsAux_fuel (n / 10) n (n / 10 + 1) hd (by omega), if_neg h]

theorem natToDigits_ne_nil (n : Nat) : natToDigits n ≠ [] := by
  rw [natToDigits_eq]
  split <;> simp

theorem digitChar_isDigit {k : Nat} (h : k < 10) : (Nat.digitChar k).isDigit = true := by
  interval_cases k <;> decide

theorem natToDigits_all_digit (n : Nat) : ∀ c ∈ natToDigits n, c.isDigit = true := by
  induction n using Nat.strongRecOn with
  | _ n ih =>
    rw [natToDigits_eq]
    by_cases h : n < 10
    · simp only [if_pos h, List.mem_singleton]
      rintro c rfl
      exact digitChar_isDigit h
    · simp only [if_neg h, List.mem_append, List.mem_singleton]
      rintro c (hc | rfl)
      · exact ih (n / 10) (Nat.div_lt_self (by omega) (by omega)) c hc
      · exact digitChar_isDigit (Nat.mod_lt _ (by omega))

theorem natToDigits_length_le (n : Nat) : ∀ k, 1 ≤ k → n < 10 ^ k →
    (natToDigits n).length ≤ k := by
  induction n using Nat.strongRecOn with
  | _ n ih =>
    intro k hk hn
    rw [natToDigits_eq]
    by_cases h10 : n < 10
    · simpa [if_pos h10] using hk
    · have hk2 : 2 ≤ k := by
        by_contra hcon
        have hk1 : k = 1 := by omega
        subst hk1
        simp at hn
        omega
      have hdiv : n / 10 < 10 ^ (k - 1) := by
        rw [Nat.div_lt_iff_lt_mul (by omega : 0 < 10)]
        calc n < 10 ^ k := hn
          _ = 10 ^ (k - 1) * 10 := by
              rw [← pow_succ]
              congr 1
              omega
      have hlen := ih (n / 10) (Nat.div_lt_self (by omega) (by omega)) (k - 1) (by omega) hdiv
      simp only [if_neg h10, List.length_append, List.length_singleton]
      omega

/-! ### Reading digit strings back -/

/-- Value of a decimal digit character. -/
def digitVal (c : Char) : Nat := c.toNat - 48

/-- Decimal reading of a digit string. -/
def parseNat (l : List Char) : Nat := l.foldl (fun a c => 10 * a + digitVal c) 0

theorem digitVal_digitChar {k : Nat} (h : k < 10) : digitVal (Nat.digitChar k) = k := by
  interval_cases k <;> decide

theorem foldl_natToDigits (n : Nat) : ∀ a : Nat,
    (natToDigits n).foldl (fun a c => 10 * a + digitVal c) a
      = a * 10 ^ (natToDigits n).length + n := by
  induction n using Nat.strongRecOn with
  | _ n ih =>
    intro a
    rw [natToDigits_eq]
    by_cases h10 : n < 10
    · simp [if_pos h10, digitVal_digitChar h10]
      ring
    · have hd : n / 10 < n := Nat.div_lt_self (by omega) (by omega)
      simp only [if_neg h10, List.foldl_append, List.foldl_cons, List.foldl_nil,
        List.length_append, List.length_singleton]
      rw [ih (n / 10) hd a, digitVal_digitChar (Nat.mod_lt _ (by omega))]
      generalize (natToDigits (n / 10)).length = L
      calc 10 * (a * 10 ^ L + n / 10) + n % 10
          = a * (10 ^ L * 10) + (10 * (n / 10) + n % 10) := by ring
        _ = a * 10 ^ (L + 1) + n := by rw [Nat.div_add_mod, pow_succ]

theorem parseNat_natToDigits (n : Nat) : parseNat (natToDigits n) = n := by
  rw [parseNat, foldl_natToDigits]
  simp

theorem parseNat_replicate_zero (k : Nat) (l : List Char) :
    parseNat (List.replicate k '0' ++ l) = parseNat l := by
  have hz : ∀ m, (List.replicate m '0').foldl (fun a c => 10 * a + digitVal c) 0 = 0 := by
    intro m
    induction m with
    | zero => rfl
    | succ m ihm => simpa [List.replicate_succ, digitVal] using ihm
  rw [parseNat, List.foldl_append, hz, parseNat]

/-! ### Fixed-width decimal rendering (Python `'%w.df' % v`) -/

/-- Zero-pad a digit string on the left to `d` digits. -/
def padZeros (d : Nat) (l : List Char) : List Char := List.replicate (d - l.length) '0' ++ l

/-- Render an already rounded scaled integer `n` (the value times `10 ^ d`)
with `d` decimal digits, right-justified with spaces to minimum width `w`.
For `d = 0` no decimal point is printed, as in C/Python `%.0f`. -/
def render (w d : Nat) (n : ℤ) : List Char :=
  let core := (if n < 0 then ['-'] else []) ++ natToDigits (n.natAbs / 10 ^ d) ++
    (if d = 0 then [] else '.' :: padZeros d (natToDigits (n.natAbs % 10 ^ d)))
  List.replicate (w - core.length) ' ' ++ core

/-- Rounding of `v * 10 ^ d` to an integer.  Python formats the binary double;
on values exact at `d` decimals (the only ones the theorems evaluate) every
rounding rule agrees, and we fix `⌊x + 1/2⌋`. -/
def decRound (d : Nat) (v : ℚ) : ℤ := ⌊v * 10 ^ d + 1 / 2⌋

/-- Model of Python's fixed-width float directive `'%w.df' % v`. -/
def fmtF (w d : Nat) (v : ℚ) : List Char := render w d (decRound d v)

/-- The value rounded to `d` written decimal digits. -/
def roundTo (d : Nat) (v : ℚ) : ℚ := (decRound d v : ℚ) / 10 ^ d

theorem decRound_eq_int (d : Nat) (v : ℚ) (k : ℤ) (h : v * 10 ^ d = (k : ℚ)) :
    decRound d v = k := by
  have h2 : ⌊(1 : ℚ) / 2⌋ = 0 := by
    rw [Int.floor_eq_zero_iff]
    constructor <;> norm_num
  rw [decRound, h, add_comm, Int.floor_add_int, h2, zero_add]

theorem roundTo_eq_self (d : Nat) (v : ℚ) (k : ℤ) (h : v * 10 ^ d = (k : ℚ)) :
    roundTo d v = v := by
  rw [roundTo, decRound_eq_int d v k h, ← h]
  field_simp

theorem decRound_natAbs_le (d : Nat) (v : ℚ) (B : ℕ) (h : |v| ≤ (B : ℚ)) :
    (decRound d v).natAbs ≤ B * 10 ^ d := by
  rw [abs_le] at h
  have hp : (0 : ℚ) < 10 ^ d := by positivity
  have h1 : decRound d v ≤ (B : ℤ) * 10 ^ d := by
    have hle : v * 10 ^ d + 1 / 2 ≤ (((B : ℤ) * 10 ^ d : ℤ) : ℚ) + 1 / 2 := by
      push_cast
      have := mul_le_mul_of_nonneg_right h.2 (le_of_lt hp)
      linarith
    have h2 : ⌊(1 : ℚ) / 2⌋ = 0 := by
      rw [Int.floor_eq_zero_iff]
      constructor <;> norm_num
    calc decRound d v ≤ ⌊(((B : ℤ) * 10 ^ d : ℤ) : ℚ) + 1 / 2⌋ := Int.floor_le_floor hle
      _ = (B : ℤ) * 10 ^ d := by rw [add_comm, Int.floor_add_int, h2, zero_add]
  have h2 : -((B : ℤ) * 10 ^ d) ≤ decRound d v := by
    rw [decRound, Int.le_floor]
    push_cast
    have := mul_le_mul_of_nonneg_right h.1 (le_of_lt hp)
    linarith
  have hc : ((10 : ℤ) ^ d) = ((10 ^ d : ℕ) : ℤ) := by push_cast; ring
  rw [hc] at h1 h2
  omega

/-! ### Reading a fixed-width decimal field back -/

/-- Discrete part of parsing a fixed-width decimal field: skip leading spaces,
read an optional minus sign, the integer digits, and the fractional digits
after an optional point.  Returns (sign, integer part, fractional part,
number of fractional digits). -/
def parseParts (l : List Char) : Bool × Nat × Nat × Nat :=
  let l1 := l.dropWhile (fun c => c == ' ')
  let neg : Bool := match l1 with
    | c :: _ => c == '-'
    | [] => false
  let l2 := if neg then l1.tail else l1
  let ip := l2.takeWhile Char.isDigit
  let r := l2.dropWhile Char.isDigit
  let fp := match r with
    | c :: t => if c == '.' then t.takeWhile Char.isDigit else []
    | [] => []
  (neg, parseNat ip, parseNat fp, fp.length)

/-- Numeric value of parsed field parts. -/
def ratOfParts : Bool × Nat × Nat × Nat → ℚ
  | (neg, i, f, e) => (if neg then -1 else 1) * ((i : ℚ) + (f : ℚ) / 10 ^ e)

/-- Reading a written field back as a decimal number. -/
def parseDec (l : List Char) : ℚ := ratOfParts (parseParts l)

theorem digit_not_special {c : Char} (h : c.isDigit = true) :
    (c == ' ') = false ∧ (c == '-') = false ∧ (c == '.') = false := by
  refine ⟨?_, ?_, ?_⟩ <;> (rw [beq_eq_false_iff_ne]; rintro rfl; exact absurd h (by decide))

theorem dropWhile_replicate_append (k : Nat) (c : Char) (p : Char → Bool) (hp : p c = true)
    (l : List Char) : (List.replicate k c ++ l).dropWhile p = l.dropWhile p := by
  induction k with
  | zero => simp
  | succ k ih => simp [List.replicate_succ, List.dropWhile_cons, hp, ih]

theorem takeWhile_all (p : Char → Bool) (l : List Char) (h : ∀ c ∈ l, p c = true) :
    l.takeWhile p = l := by
  induction l with
  | nil => rfl
  | cons x xs ih =>
    rw [List.takeWhile_cons, if_pos (h x (by simp))]
    rw [ih (fun c hc => h c (by simp [hc]))]

theorem dropWhile_all (p : Char → Bool) (l : List Char) (h : ∀ c ∈ l, p c = true) :
    l.dropWhile p = [] := by
  induction l with
  | nil => rfl
  | cons x xs ih =>
    rw [List.dropWhile_cons, if_pos (h x (by simp))]
    exact ih (fun c hc => h c (by simp [hc]))

theorem takeWhile_append_stop (p : Char → Bool) (a : List Char) (b : Char) (t : List Char)
    (ha : ∀ c ∈ a, p c = true) (hb : p b = false) :
    (a ++ b :: t).takeWhile p = a ∧ (a ++ b :: t).dropWhile p = b :: t := by
  induction a with
  | nil => simp [List.takeWhile_cons, List.dropWhile_cons, hb]
  | cons x xs ih =>
    have hx : p x = true := ha x (by simp)
    have hrec := ih (fun c hc => ha c (by simp [hc]))
    simp only [List.cons_append, List.takeWhile_cons, List.dropWhile_cons, hx, if_pos]
    exact ⟨by rw [hrec.1], hrec.2⟩

theorem padZeros_length (d : Nat) (l : List Char) (h : l.length ≤ d) :
    (padZeros d l).length = d := by
  simp [padZeros]
  omega

theorem padZeros_all_digit (d : Nat) (l : List Char) (h : ∀ c ∈ l, c.isDigit = true) :
    ∀ c ∈ padZeros d l, c.isDigit = true := by
  intro c hc
  rw [padZeros] at hc
  rcases List.mem_append.mp hc with hc | hc
  · rw [List.eq_of_mem_replicate hc]
    decide
  · exact h c hc


theorem parseParts_shape (pad : Nat) (sign : Bool) (ipd fpd : List Char) (d : Nat)
    (hip : ∀ c ∈ ipd, c.isDigit = true) (hipn : ipd ≠ [])
    (hfp : ∀ c ∈ fpd, c.isDigit = true) :
    parseParts (List.replicate pad ' ' ++ ((if sign then ['-'] else []) ++ ipd ++
        (if d = 0 then [] else '.' :: fpd)))
      = (sign, parseNat ipd, if d = 0 then 0 else parseNat fpd,
          if d = 0 then 0 else fpd.length) := by
  obtain ⟨c0, t0, hc0⟩ := List.exists_cons_of_ne_nil hipn
  subst hc0
  have hc0d : c0.isDigit = true := hip c0 (by simp)
  have hsp : (c0 == ' ') = false := (digit_not_special hc0d).1
  have hmn : (c0 == '-') = false := (digit_not_special hc0d).2.1
  have htw : ((c0 :: t0) ++ (if d = 0 then [] else '.' :: fpd)).takeWhile Char.isDigit
        = c0 :: t0 ∧
      ((c0 :: t0) ++ (if d = 0 then [] else '.' :: fpd)).dropWhile Char.isDigit
        = if d = 0 then [] else '.' :: fpd := by
    by_cases hd : d = 0
    · simp only [if_pos hd, List.append_nil]
      exact ⟨takeWhile_all _ _ hip, dropWhile_all _ _ hip⟩
    · simp only [if_neg hd]
      exact takeWhile_append_stop _ _ _ _ hip (by decide)
  have htw1 := htw.1
  have htw2 := htw.2
  simp only [List.cons_append] at htw1 htw2
  have hfrac : (match (if d = 0 then ([] : List Char) else '.' :: fpd) with
      | c :: t => if c == '.' then t.takeWhile Char.isDigit else []
      | [] => []) = if d = 0 then [] else fpd := by
    by_cases hd : d = 0
    · simp [hd]
    · simp only [if_neg hd]
      simp [takeWhile_all _ _ hfp]
  cases sign
  · have hl1 : ((List.replicate pad ' ' ++ ((if false then ['-'] else []) ++ (c0 :: t0) ++
        (if d = 0 then [] else '.' :: fpd))).dropWhile (fun c => c == ' '))
        = c0 :: (t0 ++ (if d = 0 then [] else '.' :: fpd)) := by
      rw [dropWhile_replicate_append _ _ _ (by decide)]
      simp [List.dropWhile_cons, beq_eq_false_iff_ne.mp hsp]
    simp only [parseParts, hl1]
    simp only [hmn, htw1, htw2, hfrac, Bool.false_eq_true, if_false]
    by_cases hd : d = 0
    · simp [hd, parseNat]
    · simp [hd]
  · have hl1 : ((List.replicate pad ' ' ++ ((if true then ['-'] else []) ++ (c0 :: t0) ++
        (if d = 0 then [] else '.' :: fpd))).dropWhile (fun c => c == ' '))
        = '-' :: (c0 :: (t0 ++ (if d = 0 then [] else '.' :: fpd))) := by
      rw [dropWhile_replicate_append _ _ _ (by decide)]
      simp [List.dropWhile_cons]
    simp only [parseParts, hl1]
    simp [List.tail_cons, htw1, htw2, hfrac]
    by_cases hd : d = 0
    · simp [hd, parseNat]
    · simp [hd, takeWhile_all _ _ hfp]

theorem parseParts_render (w d : Nat) (n : ℤ) :
    parseParts (render w d n)
      = (decide (n < 0), n.natAbs / 10 ^ d,
          if d = 0 then 0 else n.natAbs % 10 ^ d, if d = 0 then 0 else d) := by
  have hip := natToDigits_all_digit (n.natAbs / 10 ^ d)
  have hipn := natToDigits_ne_nil (n.natAbs / 10 ^ d)
  have hfp := padZeros_all_digit d _ (natToDigits_all_digit (n.natAbs % 10 ^ d))
  have hshape := parseParts_shape (w - ((if n < 0 then ['-'] else []) ++
      natToDigits (n.natAbs / 10 ^ d) ++
      (if d = 0 then [] else '.' :: padZeros d (natToDigits (n.natAbs % 10 ^ d)))).length)
    (decide (n < 0)) (natToDigits (n.natAbs / 10 ^ d))
    (padZeros d (natToDigits (n.natAbs % 10 ^ d))) d hip hipn hfp
  have hsign : (if (decide (n < 0)) then ['-'] else ([] : List Char))
      = (if n < 0 then ['-'] else []) := by
    by_cases hn : n < 0 <;> simp [hn]
  rw [hsign] at hshape
  rw [render]
  rw [hshape, parseNat_natToDigits]
  by_cases hd : d = 0
  · simp [hd, Nat.mod_one]
  · have hlen : (natToDigits (n.natAbs % 10 ^ d)).length ≤ d :=
      natToDigits_length_le _ d (by omega) (Nat.mod_lt _ (by positivity))
    rw [padZeros, parseNat_replicate_zero, parseNat_natToDigits]
    simp [hd, padZeros_length d _ hlen, padZeros]
    omega

theorem ratOfParts_eval (neg : Bool) (i f e : Nat) :
    ratOfParts (neg, i, f, e) = (if neg then -1 else 1) * ((i : ℚ) + (f : ℚ) / 10 ^ e) := rfl

theorem parseDec_fmtF (w d : Nat) (v : ℚ) : parseDec (fmtF w d v) = roundTo d v := by
  rw [parseDec, fmtF, parseParts_render, roundTo]
  generalize decRound d v = n
  have hq : ((n.natAbs / 10 ^ d : ℕ) : ℚ) * 10 ^ d + ((n.natAbs % 10 ^ d : ℕ) : ℚ)
      = (n.natAbs : ℚ) := by
    have hnat : (n.natAbs / 10 ^ d) * 10 ^ d + n.natAbs % 10 ^ d = n.natAbs := by
      rw [mul_comm]
      exact Nat.div_add_mod _ _
    exact_mod_cast congrArg (Nat.cast (R := ℚ)) hnat
  have hpow : (10 : ℚ) ^ d ≠ 0 := by positivity
  have habs : (if (decide (n < 0)) then (-1 : ℚ) else 1) * (n.natAbs : ℚ) = (n : ℚ) := by
    by_cases hn : n < 0
    · rw [if_pos (decide_eq_true hn)]
      have h1 : (n.natAbs : ℚ) = -(n : ℚ) := by
        rw [Int.cast_natAbs]
        exact_mod_cast congrArg (Int.cast : ℤ → ℚ) (abs_of_neg hn)
      rw [h1]
      ring
    · rw [if_neg (by simp [hn])]
      have h1 : (n.natAbs : ℚ) = (n : ℚ) := by
        rw [Int.cast_natAbs]
        exact_mod_cast congrArg (Int.cast : ℤ → ℚ) (abs_of_nonneg (not_lt.mp hn))
      rw [h1, one_mul]
  by_cases hd : d = 0
  · subst hd
    rw [if_pos rfl, ratOfParts_eval]
    simp only [pow_zero, Nat.div_one, Nat.cast_zero, zero_div, add_zero, div_one]
    simpa [Nat.div_one] using habs
  · rw [if_neg hd, if_neg hd, ratOfParts_eval]
    calc (if (decide (n < 0)) then (-1 : ℚ) else 1) *
          (((n.natAbs / 10 ^ d : ℕ) : ℚ) + ((n.natAbs % 10 ^ d : ℕ) : ℚ) / 10 ^ d)
        = (if (decide (n < 0)) then (-1 : ℚ) else 1) *
          ((((n.natAbs / 10 ^ d : ℕ) : ℚ) * 10 ^ d + ((n.natAbs % 10 ^ d : ℕ) : ℚ)) / 10 ^ d) := by
          congr 1
          rw [add_div, mul_div_cancel_right₀ _ hpow]
      _ = (if (decide (n < 0)) then (-1 : ℚ) else 1) * ((n.natAbs : ℚ) / 10 ^ d) := by rw [hq]
      _ = (n : ℚ) / 10 ^ d := by rw [← mul_div_assoc, habs]

theorem render_length_eq (w d : Nat) (n : ℤ) (k : Nat) (hk : 1 ≤ k)
    (hip : n.natAbs / 10 ^ d < 10 ^ k) (hw : 1 + k + 1 + d ≤ w) (hd : 1 ≤ d) :
    (render w d n).length = w := by
  have hiplen := natToDigits_length_le (n.natAbs / 10 ^ d) k hk hip
  have hfplen : (natToDigits (n.natAbs % 10 ^ d)).length ≤ d :=
    natToDigits_length_le _ d hd (Nat.mod_lt _ (by positivity))
  have hpad := padZeros_length d _ hfplen
  rw [render]
  simp only [List.length_append, List.length_replicate, List.length_cons,
    if_neg (by omega : ¬ d = 0), hpad]
  by_cases hneg : n < 0
  · simp only [if_pos hneg, List.length_singleton]
    omega
  · simp only [if_neg hneg, List.length_nil]
    omega

theorem fmtF_length_eq (w d : Nat) (v : ℚ) (B k : Nat) (hB : |v| ≤ (B : ℚ))
    (hBk : B < 10 ^ k) (hk : 1 ≤ k) (hw : 1 + k + 1 + d ≤ w) (hd : 1 ≤ d) :
    (fmtF w d v).length = w := by
  apply render_length_eq w d _ k hk _ hw hd
  have h1 := decRound_natAbs_le d v B hB
  have h2 : (decRound d v).natAbs / 10 ^ d ≤ B := by
    calc (decRound d v).natAbs / 10 ^ d ≤ B * 10 ^ d / 10 ^ d := Nat.div_le_div_right h1
      _ = B := by
        rw [Nat.mul_div_cancel]
        positivity
  omega

/-- Every field the writers emit is 16 characters wide whenever the value is
at most 9999 in magnitude (1 sign + 4 integer digits + point + 10 decimals
still fits in 16). -/
theorem fmtF_length_16 (d : Nat) (v : ℚ) (hd : 1 ≤ d) (hdw : d ≤ 10)
    (h : |v| ≤ 9999) : (fmtF 16 d v).length = 16 := by
  apply fmtF_length_eq 16 d v 9999 4 (by exact_mod_cast h) (by norm_num) (by norm_num)
    (by omega) hd

/-- The characters a formatted field can contain: space, minus, point, digits. -/
def fmtChar (c : Char) : Bool := c == ' ' || c == '-' || c == '.' || c.isDigit

theorem render_chars (w d : Nat) (n : ℤ) : ∀ c ∈ render w d n, fmtChar c = true := by
  intro c hc
  rw [render] at hc
  simp only [List.mem_append] at hc
  rcases hc with hc | (hc | hc) | hc
  · rw [List.eq_of_mem_replicate hc]
    decide
  · have : c = '-' := by
      rcases (by split at hc <;> simp_all : c = '-')
      rfl
    rw [this]
    decide
  · simp [fmtChar, natToDigits_all_digit _ c hc]
  · by_cases hd : d = 0
    · rw [if_pos hd] at hc
      simp at hc
    · rw [if_neg hd] at hc
      rcases List.mem_cons.mp hc with rfl | hc
      · decide
      · simp [fmtChar, padZeros_all_digit d _ (natToDigits_all_digit _) c hc]

theorem fmtF_chars (w d : Nat) (v : ℚ) : ∀ c ∈ fmtF w d v, fmtChar c = true :=
  render_chars w d (decRound d v)

theorem fmtF_no_newline (w d : Nat) (v : ℚ) : '\n' ∉ fmtF w d v := by
  intro hc
  exact absurd (fmtF_chars w d v '\n' hc) (by decide)

/-! ### Contiguous-segment (token) machinery -/

/-- `SegIn t l` : the token `t` occurs as a contiguous run inside `l`. -/
def SegIn (t l : List Char) : Prop := ∃ p q, l = p ++ t ++ q

/-- Boolean check that `t` is a leading run of `l`. -/
def leadRun : List Char → List Char → Bool
  | [], _ => true
  | _ :: _, [] => false
  | c :: t, d :: l => c == d && leadRun t l

/-- Boolean check that the token `t` occurs contiguously in `l`. -/
def hasSeg (t : List Char) : List Char → Bool
  | [] => t.isEmpty
  | c :: rest => leadRun t (c :: rest) || hasSeg t rest

theorem leadRun_correct (t : List Char) : ∀ l, leadRun t l = true → ∃ q, l = t ++ q := by
  induction t with
  | nil => exact fun l _ => ⟨l, rfl⟩
  | cons c t ih =>
    intro l hl
    match l with
    | [] => simp [leadRun] at hl
    | d :: l =>
      simp only [leadRun, Bool.and_eq_true, beq_iff_eq] at hl
      obtain ⟨q, hq⟩ := ih l hl.2
      exact ⟨q, by rw [hl.1, hq]; rfl⟩

theorem hasSeg_correct (t : List Char) : ∀ l, hasSeg t l = true → SegIn t l := by
  intro l
  induction l with
  | nil =>
    intro h
    simp only [hasSeg, List.isEmpty_iff] at h
    exact ⟨[], [], by simp [h]⟩
  | cons c rest ih =>
    intro h
    rcases Bool.or_eq_true _ _ |>.mp h with h | h
    · obtain ⟨q, hq⟩ := leadRun_correct t _ h
      exact ⟨[], q, by simp [hq]⟩
    · obtain ⟨p, q, hpq⟩ := ih h
      exact ⟨c :: p, q, by simp [hpq]⟩

theorem segIn_mem {t l : List Char} (h : SegIn t l) : ∀ c ∈ t, c ∈ l := by
  obtain ⟨p, q, rfl⟩ := h
  intro c hc
  simp [hc]


/-- Splitting a contiguous run across an append: it lies in the left part, in
the right part, or straddles the boundary (nonempty trailing run of the left
part followed by nonempty leading run of the right part). -/
theorem segIn_append {t a b : List Char} (h : SegIn t (a ++ b)) :
    SegIn t a ∨ SegIn t b ∨
      ∃ t1 t2, t = t1 ++ t2 ∧ t1 ≠ [] ∧ t2 ≠ [] ∧
        (∃ p, a = p ++ t1) ∧ ∃ q, b = t2 ++ q := by
  obtain ⟨p, q, hpq⟩ := h
  rw [List.append_assoc] at hpq
  rcases List.append_eq_append_iff.mp hpq with ⟨u, hu1, hu2⟩ | ⟨u, hu1, hu2⟩
  · right; left
    refine ⟨u, q, ?_⟩
    rw [hu2]
    simp [List.append_assoc]
  · rcases List.append_eq_append_iff.mp hu2 with ⟨w, hw1, hw2⟩ | ⟨w, hw1, hw2⟩
    · left
      refine ⟨p, w, ?_⟩
      rw [hu1, hw1]
      simp [List.append_assoc]
    · by_cases hue : u = []
      · subst hue
        right; left
        refine ⟨[], q, ?_⟩
        rw [hw2]
        simp only [List.nil_append]
        rw [hw1]
        simp
      · by_cases hwe : w = []
        · subst hwe
          left
          refine ⟨p, [], ?_⟩
          rw [hu1, List.append_nil]
          rw [List.append_nil] at hw1
          rw [hw1]
        · right; right
          exact ⟨u, w, hw1, hue, hwe, ⟨p, hu1⟩, ⟨q, hw2⟩⟩

/-! ### Newline-terminated lines -/

/-- Join a list of lines, terminating each with a newline (the writers end
every line they produce with `'\n'`). -/
def joinNL (ls : List (List Char)) : List Char := (ls.map (fun l => l ++ ['\n'])).flatten

theorem joinNL_nil : joinNL [] = [] := rfl

theorem joinNL_cons (l : List Char) (ls : List (List Char)) :
    joinNL (l :: ls) = (l ++ ['\n']) ++ joinNL ls := rfl

theorem joinNL_append (xs ys : List (List Char)) :
    joinNL (xs ++ ys) = joinNL xs ++ joinNL ys := by
  rw [joinNL, List.map_append, List.flatten_append]
  rfl

theorem joinNL_singleton (l : List Char) : joinNL [l] = l ++ ['\n'] := by
  rw [joinNL_cons, joinNL_nil, List.append_nil]

/-- A nonempty newline-free token occurring in a file made of newline-terminated
lines occurs inside one of the lines. -/
theorem segIn_joinNL {t : List Char} (ls : List (List Char))
    (htn : '\n' ∉ t) (hte : t ≠ []) (h : SegIn t (joinNL ls)) : ∃ l ∈ ls, SegIn t l := by
  induction ls with
  | nil =>
    obtain ⟨p, q, hpq⟩ := h
    rw [joinNL_nil] at hpq
    rcases List.append_eq_nil.mp hpq.symm with ⟨h1, -⟩
    rcases List.append_eq_nil.mp h1 with ⟨-, h2⟩
    exact absurd h2 hte
  | cons l rest ih =>
    rw [joinNL_cons] at h
    rcases segIn_append h with h | h | ⟨t1, t2, ht, ht1, ht2, ⟨p, hp⟩, ⟨q, hq⟩⟩
    · rcases segIn_append h with h | h | ⟨t1, t2, ht, ht1, ht2, ⟨p, hp⟩, ⟨q, hq⟩⟩
      · exact ⟨l, by simp, h⟩
      · exfalso
        obtain ⟨p, q, hpq⟩ := h
        cases p with
        | cons c p' =>
          rw [List.cons_append, List.cons_append] at hpq
          injection hpq with h1 h2
          rcases List.append_eq_nil.mp h2.symm with ⟨h3, -⟩
          rcases List.append_eq_nil.mp h3 with ⟨-, h4⟩
          exact hte h4
        | nil =>
          rw [List.nil_append] at hpq
          cases t with
          | nil => exact hte rfl
          | cons c t' =>
            rw [List.cons_append] at hpq
            injection hpq with h1 h2
            apply htn
            rw [← h1]
            simp
      · exfalso
        apply htn
        cases t2 with
        | nil => exact absurd rfl ht2
        | cons c t2' =>
          rw [List.cons_append] at hq
          injection hq with h1 h2
          rw [ht, ← h1]
          simp
    · rcases ih h with ⟨x, hx, hseg⟩
      exact ⟨x, by simp [hx], hseg⟩
    · exfalso
      apply htn
      have h2 := congrArg List.getLast? hp
      rw [List.getLast?_append_of_ne_nil l (by simp), List.getLast?_append_of_ne_nil p ht1]
        at h2
      simp only [List.getLast?_singleton] at h2
      obtain ⟨hne, hx⟩ := List.mem_getLast?_eq_getLast
        (show '\n' ∈ t1.getLast? from Option.mem_def.mpr h2.symm)
      rw [ht, hx]
      simp [List.getLast_mem hne]

theorem mem_joinNL {c : Char} {ls : List (List Char)} (h : c ∈ joinNL ls) :
    c = '\n' ∨ ∃ l ∈ ls, c ∈ l := by
  rw [joinNL] at h
  rcases List.mem_flatten.mp h with ⟨x, hx, hcx⟩
  rcases List.mem_map.mp hx with ⟨l, hl, rfl⟩
  rcases List.mem_append.mp hcx with hc | hc
  · exact Or.inr ⟨l, hl, hc⟩
  · left
    simpa using hc

/-! ### Splitting a line into consecutive fixed-width fields -/

/-- Split a character list into consecutive `k`-character chunks (the last
chunk is shorter when the length is not a multiple of `k`).  The first
argument of the auxiliary function is fuel, always sufficient at the length
of the list. -/
def chunksAux (k : Nat) : Nat → List Char → List (List Char)
  | _, [] => []
  | 0, _ => []
  | fuel + 1, l => l.take k :: chunksAux k fuel (l.drop k)

def chunks (k : Nat) (l : List Char) : List (List Char) := chunksAux k l.length l

theorem chunksAux_cons (k f : Nat) (c : Char) (l : List Char) :
    chunksAux k (f + 1) (c :: l) = (c :: l).take k :: chunksAux k f ((c :: l).drop k) := rfl

theorem chunksAux_flatten (k : Nat) (hk : 1 ≤ k) : ∀ ps : List (List Char),
    (∀ p ∈ ps, p.length = k) → ∀ fuel, ps.flatten.length ≤ fuel →
    chunksAux k fuel ps.flatten = ps := by
  intro ps
  induction ps with
  | nil =>
    intro _ fuel _
    cases fuel <;> rfl
  | cons p ps ih =>
    intro hall fuel hfuel
    have hpk : p.length = k := hall p (by simp)
    obtain ⟨c, p', rfl⟩ : ∃ c p', p = c :: p' := by
      cases p with
      | nil =>
        exfalso
        simp at hpk
        omega
      | cons c p' => exact ⟨c, p', rfl⟩
    rw [List.flatten_cons] at hfuel ⊢
    match fuel with
    | 0 =>
      exfalso
      simp only [List.length_append, List.length_cons] at hfuel
      omega
    | f + 1 =>
      rw [show (c :: p') ++ ps.flatten = c :: (p' ++ ps.flatten) from rfl, chunksAux_cons]
      rw [show c :: (p' ++ ps.flatten) = (c :: p') ++ ps.flatten from rfl]
      rw [← hpk, List.take_left, List.drop_left, hpk]
      rw [ih (fun q hq => hall q (by simp [hq])) f (by
        simp only [List.length_append, List.length_cons] at hfuel
        omega)]

/-- Splitting the concatenation of `k`-character fields recovers the fields. -/
theorem chunks_flatten (k : Nat) (hk : 1 ≤ k) (ps : List (List Char))
    (hall : ∀ p ∈ ps, p.length = k) : chunks k ps.flatten = ps :=
  chunksAux_flatten k hk ps hall ps.flatten.length (le_refl _)

/-! ### Data model -/

/-- A 2-D numeric array (numpy matrix restricted to the two trailing axes the
writers index): `nrow = shape[-2]`, `ncol = shape[-1]`, `entry aa bb =
a[aa, bb]`. -/
structure Mat2 where
  nrow : Nat
  ncol : Nat
  entry : Nat → Nat → ℚ

/-! ### The SWAN boundary-spectrum writer (swan_pre.py, write_boundary_spec) -/

/-- One `LOCATIONS` line as the source writes it:
`fid.write('%16.4f' % locations[aa,0] + ' ' + '%16.4f' % locations[aa,1] + '\n')`
(without the final newline). -/
def locLine (p : ℚ × ℚ) : List Char := fmtF 16 4 p.1 ++ " ".data ++ fmtF 16 4 p.2

/-- The data-block lines: one line per frequency (`spec.shape[-2]`), all
direction values (`spec.shape[-1]`) for that frequency concatenated as
16-char/10-decimal fields with no delimiter. -/
def dataLines (m : Mat2) : List (List Char) :=
  (List.range m.nrow).map (fun aa =>
    ((List.range m.ncol).map (fun bb => fmtF 16 10 (m.entry aa bb))).flatten)

/-- The data block as written: each line followed by a newline. -/
def dataBlock (m : Mat2) : List Char := joinNL (dataLines m)

/-- Transcription of `swan_pre.write_boundary_spec` (swan_pre.py lines 60-111):
the text written to `outfile`, in write order.  `freq` and `sdir` are the 1-D
arrays, `spec` the spectra matrix indexed `spec[aa, bb]` over its two trailing
axes, `locations` the `(npts, 2)` location matrix as a list of rows.  The
`waveTime` argument of the Python signature is never read by the source. -/
def swan_write_boundary_spec (freq : List ℚ) (spec : Mat2) (locations : List (ℚ × ℚ))
    (waveTime : Option (List ℚ)) (sdir : Option (List ℚ)) : List Char :=
  "SWAN 1\n".data
  ++ "LOCATIONS\n".data
  ++ (fmtF 12 0 (locations.length : ℚ) ++ "\n".data)
  ++ (locations.map (fun p => locLine p ++ "\n".data)).flatten
  ++ "RFREQ\n".data
  ++ (fmtF 12 0 (freq.length : ℚ) ++ "\n".data)
  ++ (freq.map (fun f => fmtF 12 8 f ++ "\n".data)).flatten
  ++ (match sdir with
      | some sd =>
        "NDIR\n".data
        ++ (fmtF 12 0 (sd.length : ℚ) ++ "\n".data)
        ++ (sd.map (fun a => fmtF 16 4 a ++ "\n".data)).flatten
      | none => [])
  ++ "QUANT\n".data ++ "1\n".data
  ++ "VaDens\n".data ++ "m2/Hz/degr\n".data
  ++ "-99\n".data
  ++ "FACTOR\n".data ++ "1\n".data
  ++ ((List.range spec.nrow).map (fun aa =>
        ((List.range spec.ncol).map (fun bb => fmtF 16 10 (spec.entry aa bb))).flatten
        ++ "\n".data)).flatten

/-! ### The section layout described by the specification (section 4.1) -/

/-- Header token identifying format and version. -/
def headerSection : List Char := "SWAN 1\n".data

/-- `LOCATIONS` section: count, then one line per location. -/
def locationsSection (locations : List (ℚ × ℚ)) : List Char :=
  "LOCATIONS\n".data ++ (fmtF 12 0 (locations.length : ℚ) ++ "\n".data)
  ++ (locations.map (fun p => locLine p ++ "\n".data)).flatten

/-- `RFREQ` section: count, then one 12-char/8-decimal line per frequency. -/
def rfreqSection (freq : List ℚ) : List Char :=
  "RFREQ\n".data ++ (fmtF 12 0 (freq.length : ℚ) ++ "\n".data)
  ++ (freq.map (fun f => fmtF 12 8 f ++ "\n".data)).flatten

/-- Optional `NDIR` section: skipped entirely when no direction vector is
supplied, otherwise count then one 16-char/4-decimal line per direction. -/
def ndirSection (sdir : Option (List ℚ)) : List Char :=
  match sdir with
  | some sd =>
    "NDIR\n".data ++ (fmtF 12 0 (sd.length : ℚ) ++ "\n".data)
    ++ (sd.map (fun a => fmtF 16 4 a ++ "\n".data)).flatten
  | none => []

/-- `QUANT` section: the literal count 1, the quantity name `VaDens`, its
units `m2/Hz/degr`, the exception value `-99`, then `FACTOR` with scale 1. -/
def quantSection : List Char :=
  "QUANT\n".data ++ "1\n".data ++ "VaDens\n".data ++ "m2/Hz/degr\n".data
  ++ "-99\n".data ++ "FACTOR\n".data ++ "1\n".data

/-- The writer produces exactly the six sections in specification order. -/
theorem swan_sections (freq : List ℚ) (spec : Mat2) (locations : List (ℚ × ℚ))
    (waveTime : Option (List ℚ)) (sdir : Option (List ℚ)) :
    swan_write_boundary_spec freq spec locations waveTime sdir =
      headerSection ++ locationsSection locations ++ rfreqSection freq
        ++ ndirSection sdir ++ quantSection ++ dataBlock spec := by
  rw [swan_write_boundary_spec.eq_def, headerSection, locationsSection, rfreqSection,
    ndirSection.eq_def, quantSection, dataBlock, joinNL, dataLines, List.map_map]
  simp only [List.append_assoc, Function.comp]
  rfl

/-- The file the swan writer produces when `sdir` is omitted, as its list of
newline-terminated lines. -/
def swanLinesNone (freq : List ℚ) (spec : Mat2) (locations : List (ℚ × ℚ)) :
    List (List Char) :=
  ["SWAN 1".data, "LOCATIONS".data, fmtF 12 0 (locations.length : ℚ)]
  ++ locations.map locLine
  ++ ["RFREQ".data, fmtF 12 0 (freq.length : ℚ)]
  ++ freq.map (fun f => fmtF 12 8 f)
  ++ ["QUANT".data, "1".data, "VaDens".data, "m2/Hz/degr".data, "-99".data,
      "FACTOR".data, "1".data]
  ++ dataLines spec

theorem swan_write_none_lines (freq : List ℚ) (spec : Mat2)
    (locations : List (ℚ × ℚ)) (waveTime : Option (List ℚ)) :
    swan_write_boundary_spec freq spec locations waveTime none
      = joinNL (swanLinesNone freq spec locations) := by
  rw [swan_write_boundary_spec.eq_def, swanLinesNone, joinNL, dataLines]
  simp only [List.map_append, List.flatten_append, List.map_map, List.map_cons, List.map_nil,
    List.flatten_cons, List.flatten_nil, Function.comp, List.append_assoc, List.append_nil]
  rfl

theorem noSeg_of_missing {t l : List Char} (c : Char) (hc : c ∈ t) (hnl : c ∉ l) :
    ¬ SegIn t l := fun h => hnl (segIn_mem h c hc)

theorem locLine_chars (p : ℚ × ℚ) : ∀ c ∈ locLine p, fmtChar c = true := by
  intro c hc
  rw [locLine] at hc
  rcases List.mem_append.mp hc with hc | hc
  · rcases List.mem_append.mp hc with hc | hc
    · exact fmtF_chars _ _ _ c hc
    · rw [show (" ".data : List Char) = [' '] from rfl] at hc
      rw [List.mem_singleton.mp hc]
      decide
  · exact fmtF_chars _ _ _ c hc

theorem dataLines_chars (m : Mat2) : ∀ l ∈ dataLines m, ∀ c ∈ l, fmtChar c = true := by
  intro l hl c hc
  rw [dataLines] at hl
  rcases List.mem_map.mp hl with ⟨aa, -, rfl⟩
  rcases List.mem_flatten.mp hc with ⟨x, hx, hcx⟩
  rcases List.mem_map.mp hx with ⟨bb, -, rfl⟩
  exact fmtF_chars _ _ _ c hcx

theorem noSeg_of_fmtChars {t l : List Char} (c : Char) (hc : c ∈ t)
    (hcf : fmtChar c = false) (hl : ∀ x ∈ l, fmtChar x = true) : ¬ SegIn t l := by
  intro h
  have := hl c (segIn_mem h c hc)
  rw [hcf] at this
  exact Bool.false_ne_true this

/-! ### The xbeach writers (xbeach_pre.py) -/

/-- The sections the non-swan (`Instat = 6`) xbeach spectrum file writes before
its data block: frequency count and values, then, only when a direction
vector is supplied, direction count and values. -/
def xbFreqDirSections (freq : List ℚ) (sdir : Option (List ℚ)) : List Char :=
  (fmtF 12 0 (freq.length : ℚ) ++ "\n".data)
  ++ (freq.map (fun f => fmtF 12 8 f ++ "\n".data)).flatten
  ++ (match sdir with
      | some sd =>
        (fmtF 12 0 (sd.length : ℚ) ++ "\n".data)
        ++ (sd.map (fun a => fmtF 16 4 a ++ "\n".data)).flatten
      | none => [])

/-- Transcription of `xbeach_pre.write_boundary_spec` (xbeach_pre.py lines
159-216): with `swan = true` it delegates to the swan writer; otherwise it
writes the generic Instat-6 file (frequency count and values, optional
direction count and values, then the frequency-major density block). -/
def xbeach_write_boundary_spec (freq : List ℚ) (spec : Mat2) (locations : List (ℚ × ℚ))
    (waveTime : Option (List ℚ)) (sdir : Option (List ℚ)) (swan : Bool) : List Char :=
  if swan then
    swan_write_boundary_spec freq spec locations waveTime sdir
  else
    (fmtF 12 0 (freq.length : ℚ) ++ "\n".data)
    ++ (freq.map (fun f => fmtF 12 8 f ++ "\n".data)).flatten
    ++ (match sdir with
        | some sd =>
          (fmtF 12 0 (sd.length : ℚ) ++ "\n".data)
          ++ (sd.map (fun a => fmtF 16 4 a ++ "\n".data)).flatten
        | none => [])
    ++ ((List.range spec.nrow).map (fun aa =>
          ((List.range spec.ncol).map (fun bb => fmtF 16 10 (spec.entry aa bb))).flatten
          ++ "\n".data)).flatten

/-! ### The xbeach bathymetry writer (xbeach_pre.py, write_bathy) -/

/-- Input of `write_bathy`: either 1-D vectors (`y` omitted) or 2-D grids
(`y` supplied).  The mode test in the source is `y is not None`. -/
inductive BathyIn where
  | oneD (x z : List ℚ)
  | twoD (x y z : Mat2)

/-- The text files `write_bathy` produces: `x.grd`, optionally `y.grd`, and
`z.dep`. -/
structure BathyFiles where
  xgrd : List Char
  ygrd : Option (List Char)
  zdep : List Char

/-- Text-file part of `xbeach_pre.write_bathy` (lines 55-92).  In 2-D mode the
three files are traversed row-major over `z.shape`; each row of each file is
closed with one newline.  In 1-D mode each file holds all samples of its own
array on a single newline-terminated line. -/
def write_bathy_text : BathyIn → BathyFiles
  | .oneD x z =>
    { xgrd := (x.map (fun v => fmtF 16 4 v)).flatten ++ "\n".data
      ygrd := none
      zdep := (z.map (fun v => fmtF 16 4 v)).flatten ++ "\n".data }
  | .twoD x y z =>
    { xgrd := ((List.range z.nrow).map (fun aa =>
        ((List.range z.ncol).map (fun bb => fmtF 16 4 (x.entry aa bb))).flatten
        ++ "\n".data)).flatten
      ygrd := some (((List.range z.nrow).map (fun aa =>
        ((List.range z.ncol).map (fun bb => fmtF 16 4 (y.entry aa bb))).flatten
        ++ "\n".data)).flatten)
      zdep := ((List.range z.nrow).map (fun aa =>
        ((List.range z.ncol).map (fun bb => fmtF 16 4 (z.entry aa bb))).flatten
        ++ "\n".data)).flatten }

/-- Final reporting block of `write_bathy` (lines 143-151), which prints the
`params.txt` values `nx` and `ny`.  The locals `xi_rho` and `eta_rho` are
assigned only inside the `if ncsave:` branch (lines 107-117), so the print
statement reads an unassigned local and raises `NameError` when
`ncsave = False`; the locals are modelled as `Option` values. -/
def write_bathy_report (b : BathyIn) (ncsave : Bool) : Except (List Char) (ℤ × ℤ) :=
  let xi_rho : Option Nat := if ncsave then
    (match b with
     | .twoD _ _ z => some z.ncol
     | .oneD _ z => some z.length)
    else none
  let eta_rho : Option Nat := if ncsave then
    (match b with
     | .twoD _ _ z => some z.nrow
     | .oneD _ _ => none)
    else none
  match b, xi_rho, eta_rho with
  | _, none, _ => Except.error "NameError: name xi_rho is not defined".data
  | .oneD _ _, some xi, _ => Except.ok ((xi : ℤ) - 1, 0)
  | .twoD _ _ _, some xi, some eta => Except.ok ((xi : ℤ) - 1, (eta : ℤ) - 1)
  | .twoD _ _ _, some _, none =>
    Except.error "NameError: name eta_rho is not defined".data

/-- `write_bathy` as a whole: the text files it writes and the grid-dimension
report it prints (or the `NameError` it raises). -/
def write_bathy (b : BathyIn) (ncsave : Bool) :
    BathyFiles × Except (List Char) (ℤ × ℤ) :=
  (write_bathy_text b, write_bathy_report b ncsave)

/-! ### File-handle instrumentation of the swan writer (resource model) -/

/-- A file handle: whether it is open and what has been written through it. -/
structure Handle where
  isOpen : Bool
  content : List Char

/-- `fid.write(s)`. -/
def hwrite (h : Handle) (s : List Char) : Handle := ⟨h.isOpen, h.content ++ s⟩

/-- The per-location loop of the swan writer over the raw location matrix with
Python indexing semantics: `locations[aa, 1]` on a row with fewer than two
entries raises `IndexError`, which propagates with the handle still open
(`Except.error` carries the handle state at the raise). -/
def locLoop : Handle → List (List ℚ) → Except Handle Handle
  | h, [] => Except.ok h
  | h, row :: rest =>
    match row.get? 0, row.get? 1 with
    | some a, some b =>
      locLoop (hwrite h (fmtF 16 4 a ++ " ".data ++ fmtF 16 4 b ++ "\n".data)) rest
    | _, _ => Except.error h

/-- The swan writer instrumented with its file handle: `open` at entry,
`close` only as the final statement.  An `IndexError` raised in the locations
loop exits the function with the handle never closed. -/
def swan_write_handle (freq : List ℚ) (spec : Mat2) (locations : List (List ℚ))
    (sdir : Option (List ℚ)) : Except Handle Handle :=
  let h := Handle.mk true []
  let h := hwrite h "SWAN 1\n".data
  let h := hwrite h "LOCATIONS\n".data
  let h := hwrite h (fmtF 12 0 (locations.length : ℚ) ++ "\n".data)
  match locLoop h locations with
  | Except.error h => Except.error h
  | Except.ok h =>
    let h := hwrite h "RFREQ\n".data
    let h := hwrite h (fmtF 12 0 (freq.length : ℚ) ++ "\n".data)
    let h := freq.foldl (fun h f => hwrite h (fmtF 12 8 f ++ "\n".data)) h
    let h := match sdir with
      | some sd =>
        let h := hwrite h "NDIR\n".data
        let h := hwrite h (fmtF 12 0 (sd.length : ℚ) ++ "\n".data)
        sd.foldl (fun h a => hwrite h (fmtF 16 4 a ++ "\n".data)) h
      | none => h
    let h := hwrite h "QUANT\n".data
    let h := hwrite h "1\n".data
    let h := hwrite h "VaDens\n".data
    let h := hwrite h "m2/Hz/degr\n".data
    let h := hwrite h "-99\n".data
    let h := hwrite h "FACTOR\n".data
    let h := hwrite h "1\n".data
    let h := (List.range spec.nrow).foldl (fun h aa =>
      hwrite ((List.range spec.ncol).foldl
        (fun h bb => hwrite h (fmtF 16 10 (spec.entry aa bb))) h) "\n".data) h
    Except.ok ⟨false, h.content⟩

/-! ### Effect model: caller's arrays, filesystem, console -/

/-- The observable state a boundary-spectrum writer call can touch: the
caller's input arrays, the filesystem (path to contents), and the console
transcript. -/
structure SpecWorld where
  freq : List ℚ
  spec : Mat2
  locations : List (ℚ × ℚ)
  waveTime : Option (List ℚ)
  sdir : Option (List ℚ)
  fs : List Char → Option (List Char)
  console : List (List Char)

/-- Effect of `swan_pre.write_boundary_spec` on the world: it creates or
overwrites `outfile` with the formatted text and touches nothing else. -/
def swan_write_world (outfile : List Char) (w : SpecWorld) : SpecWorld :=
  { w with fs := fun p => if p = outfile
      then some (swan_write_boundary_spec w.freq w.spec w.locations w.waveTime w.sdir)
      else w.fs p }

/-- Effect of `xbeach_pre.write_boundary_spec` on the world: one console
message, then the file written at `outfile` (via the swan writer when
`swan = true`). -/
def xbeach_spec_world (outfile : List Char) (swan : Bool) (w : SpecWorld) : SpecWorld :=
  { w with
    console := w.console ++ [if swan then "Writting swan formatted input, Instat = 5".data
      else "Writing 2D spectrum for Instat = 6".data]
    fs := fun p => if p = outfile
      then some (xbeach_write_boundary_spec w.freq w.spec w.locations w.waveTime w.sdir swan)
      else w.fs p }

/-- The observable state of a `write_bathy` call: the caller's arrays, the
text filesystem, the netCDF sidecar store (a typed dataset carrying the same
arrays), and the console. -/
structure BathyWorld where
  bathy : BathyIn
  fs : List Char → Option (List Char)
  nc : List Char → Option BathyIn
  console : List (List Char)

/-- Effect of `write_bathy` on the world: the text grids under `outfld`, the
optional `depth.nc` sidecar (same arrays plus ambient metadata, out of scope
here), one console mode message (the `params.txt` report lines are the
returned value, `Except.error` when `ncsave = False` raises `NameError`). -/
def write_bathy_world (outfld : List Char) (ncsave : Bool) (w : BathyWorld) :
    BathyWorld × Except (List Char) (ℤ × ℤ) :=
  let files := write_bathy_text w.bathy
  ({ w with
      fs := fun p =>
        if p = outfld ++ "x.grd".data then some files.xgrd
        else if p = outfld ++ "y.grd".data then
          (match files.ygrd with
            | some c => some c
            | none => w.fs p)
        else if p = outfld ++ "z.dep".data then some files.zdep
        else w.fs p
      nc := if ncsave then
          (fun p => if p = outfld ++ "depth.nc".data then some w.bathy else w.nc p)
        else w.nc
      console := w.console ++ [match w.bathy with
        | .twoD _ _ _ => "Writing 2D grids".data
        | .oneD _ _ => "Writing 1D grids".data] },
    write_bathy_report w.bathy ncsave)

/-! ### Supporting lemmas for the claims -/

/-- The fields of one data-block line: all direction values of frequency row
`aa`, each as a 16-char/10-decimal field. -/
def fieldsRow (m : Mat2) (aa : Nat) : List (List Char) :=
  (List.range m.ncol).map (fun bb => fmtF 16 10 (m.entry aa bb))

theorem dataLines_eq_fields (m : Mat2) :
    dataLines m = (List.range m.nrow).map (fun aa => (fieldsRow m aa).flatten) := rfl

/-- The generic (non-swan) xbeach file is its frequency/direction sections
followed by exactly the swan data block. -/
theorem xbeach_generic_decomp (freq : List ℚ) (spec : Mat2)
    (locations : List (ℚ × ℚ)) (waveTime : Option (List ℚ)) (sdir : Option (List ℚ)) :
    xbeach_write_boundary_spec freq spec locations waveTime sdir false
      = xbFreqDirSections freq sdir ++ dataBlock spec := by
  rw [xbeach_write_boundary_spec.eq_def, xbFreqDirSections.eq_def, dataBlock, joinNL, dataLines,
    List.map_map]
  simp only [Bool.false_eq_true, if_false, List.append_assoc, Function.comp]
  rfl

theorem mem_xbFreqDirSections_chars (freq : List ℚ) (sdir : Option (List ℚ)) :
    ∀ c ∈ xbFreqDirSections freq sdir, (fmtChar c || (c == '\n')) = true := by
  intro c hc
  rw [xbFreqDirSections.eq_def] at hc
  have hnl : ∀ x ∈ ("\n".data : List Char), (fmtChar x || (x == '\n')) = true := by
    intro x hx
    rw [List.mem_singleton.mp hx]
    decide
  have hfmt : ∀ w d v, ∀ x ∈ fmtF w d v, (fmtChar x || (x == '\n')) = true := by
    intro w d v x hx
    rw [fmtF_chars w d v x hx]
    rfl
  rcases List.mem_append.mp hc with hc | hc
  · rcases List.mem_append.mp hc with hc | hc
    · rcases List.mem_append.mp hc with hc | hc
      · exact hfmt _ _ _ c hc
      · exact hnl c hc
    · rcases List.mem_flatten.mp hc with ⟨x, hx, hcx⟩
      rcases List.mem_map.mp hx with ⟨f, -, rfl⟩
      rcases List.mem_append.mp hcx with hcx | hcx
      · exact hfmt _ _ _ c hcx
      · exact hnl c hcx
  · match sdir, hc with
    | none, hc => simp at hc
    | some sd, hc =>
      rcases List.mem_append.mp hc with hc | hc
      · rcases List.mem_append.mp hc with hc | hc
        · exact hfmt _ _ _ c hc
        · exact hnl c hc
      · rcases List.mem_flatten.mp hc with ⟨x, hx, hcx⟩
        rcases List.mem_map.mp hx with ⟨a, -, rfl⟩
        rcases List.mem_append.mp hcx with hcx | hcx
        · exact hfmt _ _ _ c hcx
        · exact hnl c hcx

theorem mem_dataBlock_chars (m : Mat2) :
    ∀ c ∈ dataBlock m, (fmtChar c || (c == '\n')) = true := by
  intro c hc
  rcases mem_joinNL hc with rfl | ⟨l, hl, hcl⟩
  · decide
  · rw [dataLines_chars m l hl c hcl]
    rfl

theorem count_nl_joinNL (ls : List (List Char)) (h : ∀ l ∈ ls, '\n' ∉ l) :
    (joinNL ls).count '\n' = ls.length := by
  induction ls with
  | nil => rfl
  | cons l rest ih =>
    rw [joinNL_cons, List.count_append, List.count_append,
      ih (fun x hx => h x (by simp [hx]))]
    rw [List.count_eq_zero.mpr (h l (by simp))]
    simp [List.count_singleton]
    omega

/-! ### Claims -/

/-- C1: the file produced by the swan boundary-spectrum writer consists of
exactly these sections in this order: the header token `SWAN 1`; a
`LOCATIONS` section with the location count then one line per location; an
`RFREQ` section with the frequency count then one 12-char/8-decimal line per
frequency; an `NDIR` section only when a direction vector is supplied (the
section is empty when it is not); a `QUANT` section with the literal count 1,
the quantity name `VaDens`, the units `m2/Hz/degr`, the exception value
`-99`, then `FACTOR` with scale 1; and finally the data block. -/
theorem swan_file_section_order (freq : List ℚ) (spec : Mat2)
    (locations : List (ℚ × ℚ)) (waveTime : Option (List ℚ)) (sdir : Option (List ℚ)) :
    swan_write_boundary_spec freq spec locations waveTime sdir =
      headerSection ++ locationsSection locations ++ rfreqSection freq
        ++ ndirSection sdir ++ quantSection ++ dataBlock spec
      ∧ ndirSection none = [] :=
  ⟨swan_sections freq spec locations waveTime sdir, rfl⟩

theorem swanLinesNone_no_ndir (freq : List ℚ) (spec : Mat2)
    (locations : List (ℚ × ℚ)) :
    ∀ l ∈ swanLinesNone freq spec locations, ¬ SegIn "NDIR".data l := by
  intro l hl
  rw [swanLinesNone] at hl
  rcases List.mem_append.mp hl with hl5 | hlF
  · rcases List.mem_append.mp hl5 with hl4 | hlE
    · rcases List.mem_append.mp hl4 with hl3 | hlD
      · rcases List.mem_append.mp hl3 with hl2 | hlC
        · rcases List.mem_append.mp hl2 with hlA | hlB
          · simp only [List.mem_cons, List.not_mem_nil, or_false] at hlA
            rcases hlA with rfl | rfl | rfl
            · exact noSeg_of_missing 'D' (by decide) (by decide)
            · exact noSeg_of_missing 'D' (by decide) (by decide)
            · exact noSeg_of_fmtChars 'N' (by decide) (by decide) (fmtF_chars 12 0 _)
          · rcases List.mem_map.mp hlB with ⟨p, -, rfl⟩
            exact noSeg_of_fmtChars 'N' (by decide) (by decide) (locLine_chars p)
        · simp only [List.mem_cons, List.not_mem_nil, or_false] at hlC
          rcases hlC with rfl | rfl
          · exact noSeg_of_missing 'N' (by decide) (by decide)
          · exact noSeg_of_fmtChars 'N' (by decide) (by decide) (fmtF_chars 12 0 _)
      · rcases List.mem_map.mp hlD with ⟨f, -, rfl⟩
        exact noSeg_of_fmtChars 'N' (by decide) (by decide) (fmtF_chars 12 8 f)
    · simp only [List.mem_cons, List.not_mem_nil, or_false] at hlE
      rcases hlE with rfl | rfl | rfl | rfl | rfl | rfl | rfl
      · exact noSeg_of_missing 'D' (by decide) (by decide)
      · exact noSeg_of_missing 'N' (by decide) (by decide)
      · exact noSeg_of_missing 'I' (by decide) (by decide)
      · exact noSeg_of_missing 'N' (by decide) (by decide)
      · exact noSeg_of_missing 'N' (by decide) (by decide)
      · exact noSeg_of_missing 'N' (by decide) (by decide)
      · exact noSeg_of_missing 'N' (by decide) (by decide)
  · exact noSeg_of_fmtChars 'N' (by decide) (by decide) (dataLines_chars spec l hlF)

/-- C7: when the direction vector is omitted, the written file does not
contain the literal token `NDIR` anywhere (no empty `NDIR` section either). -/
theorem no_ndir_when_sdir_none (freq : List ℚ) (spec : Mat2)
    (locations : List (ℚ × ℚ)) (waveTime : Option (List ℚ)) :
    hasSeg "NDIR".data
      (swan_write_boundary_spec freq spec locations waveTime none) = false := by
  cases hcon : hasSeg "NDIR".data
      (swan_write_boundary_spec freq spec locations waveTime none) with
  | false => rfl
  | true =>
    exfalso
    have h := hasSeg_correct _ _ hcon
    rw [swan_write_none_lines] at h
    rcases segIn_joinNL _ (by decide) (by decide) h with ⟨l, hl, hseg⟩
    exact swanLinesNone_no_ndir freq spec locations l hl hseg

theorem xbeach_generic_chars (freq : List ℚ) (spec : Mat2)
    (locations : List (ℚ × ℚ)) (waveTime : Option (List ℚ)) (sdir : Option (List ℚ)) :
    ∀ c ∈ xbeach_write_boundary_spec freq spec locations waveTime sdir false,
      (fmtChar c || (c == '\n')) = true := by
  intro c hc
  rw [xbeach_generic_decomp] at hc
  rcases List.mem_append.mp hc with hc | hc
  · exact mem_xbFreqDirSections_chars freq sdir c hc
  · exact mem_dataBlock_chars spec c hc

theorem xbeach_no_token (freq : List ℚ) (spec : Mat2) (locations : List (ℚ × ℚ))
    (waveTime : Option (List ℚ)) (sdir : Option (List ℚ)) (tok : List Char) (c : Char)
    (hc : c ∈ tok) (hcf : (fmtChar c || (c == '\n')) = false) :
    hasSeg tok (xbeach_write_boundary_spec freq spec locations waveTime sdir false)
      = false := by
  cases hcon : hasSeg tok
      (xbeach_write_boundary_spec freq spec locations waveTime sdir false) with
  | false => rfl
  | true =>
    exfalso
    have h := hasSeg_correct _ _ hcon
    have := xbeach_generic_chars freq spec locations waveTime sdir c (segIn_mem h c hc)
    rw [hcf] at this
    exact Bool.false_ne_true this

/-- C3: the alternate-format (Instat-6) writer emits none of the header,
`LOCATIONS`, `QUANT` or `FACTOR` tokens, and the data block it writes is
byte-identical to the one the standard swan writer appends (`dataBlock spec`,
cf. `swan_file_section_order`): the file is just the frequency/direction
sections followed by that block. -/
theorem xbeach_generic_format (freq : List ℚ) (spec : Mat2)
    (locations : List (ℚ × ℚ)) (waveTime : Option (List ℚ)) (sdir : Option (List ℚ)) :
    xbeach_write_boundary_spec freq spec locations waveTime sdir false
        = xbFreqDirSections freq sdir ++ dataBlock spec
      ∧ hasSeg "SWAN 1".data
          (xbeach_write_boundary_spec freq spec locations waveTime sdir false) = false
      ∧ hasSeg "LOCATIONS".data
          (xbeach_write_boundary_spec freq spec locations waveTime sdir false) = false
      ∧ hasSeg "QUANT".data
          (xbeach_write_boundary_spec freq spec locations waveTime sdir false) = false
      ∧ hasSeg "FACTOR".data
          (xbeach_write_boundary_spec freq spec locations waveTime sdir false) = false :=
  ⟨xbeach_generic_decomp freq spec locations waveTime sdir,
    xbeach_no_token freq spec locations waveTime sdir _ 'S' (by decide) (by decide),
    xbeach_no_token freq spec locations waveTime sdir _ 'L' (by decide) (by decide),
    xbeach_no_token freq spec locations waveTime sdir _ 'Q' (by decide) (by decide),
    xbeach_no_token freq spec locations waveTime sdir _ 'F' (by decide) (by decide)⟩

/-- A 1 x 1 density grid holding a value too wide for a 16-character field. -/
def bigValMat : Mat2 := ⟨1, 1, fun _ _ => 1000000⟩

/-- C2 counterexample: with the density value 1000000 the single data-block
field is 18 characters wide, not 16 — `%16.10f` only guarantees a minimum
width, so the claim's unconditional 16-character field width is false. -/
theorem swan_data_field_width_cex :
    dataLines bigValMat = [fmtF 16 10 1000000]
      ∧ (fmtF 16 10 (1000000 : ℚ)).length = 18
      ∧ ¬ (fmtF 16 10 (1000000 : ℚ)).length = 16 := by
  have hdr : decRound 10 (1000000 : ℚ) = 10000000000000000 :=
    decRound_eq_int 10 1000000 10000000000000000 (by norm_num)
  refine ⟨by simp [dataLines, bigValMat], ?_, ?_⟩
  · rw [fmtF, hdr]
    decide
  · rw [fmtF, hdr]
    decide

/-- C2 (amended with the field-fit proviso): for a frequency vector of length
N_f and direction vector of length N_d, and a density grid with trailing axes
N_f x N_d whose values fit the field (|value| at most 9999), the data block
has exactly N_f lines; each line is the delimiter-free concatenation of
exactly N_d fields of exactly 16 characters (10 decimals), so it is 16 * N_d
characters long and splitting it at 16-character column positions recovers
the fields; and the writer's file ends in exactly this block. -/
theorem swan_data_block_shape (freq sdir : List ℚ) (spec : Mat2)
    (hf : spec.nrow = freq.length) (hd : spec.ncol = sdir.length)
    (hfit : ∀ aa bb, aa < spec.nrow → bb < spec.ncol → |spec.entry aa bb| ≤ 9999) :
    (dataLines spec).length = freq.length
      ∧ dataLines spec = (List.range spec.nrow).map (fun aa => (fieldsRow spec aa).flatten)
      ∧ (∀ aa, aa < spec.nrow →
          (fieldsRow spec aa).length = sdir.length
          ∧ (∀ fld ∈ fieldsRow spec aa, fld.length = 16)
          ∧ ((fieldsRow spec aa).flatten).length = 16 * sdir.length
          ∧ chunks 16 ((fieldsRow spec aa).flatten) = fieldsRow spec aa)
      ∧ (∀ locations waveTime,
          swan_write_boundary_spec freq spec locations waveTime (some sdir)
            = headerSection ++ locationsSection locations ++ rfreqSection freq
              ++ ndirSection (some sdir) ++ quantSection ++ joinNL (dataLines spec)) := by
  have hfld : ∀ aa, aa < spec.nrow → ∀ fld ∈ fieldsRow spec aa, fld.length = 16 := by
    intro aa haa fld hfld
    rcases List.mem_map.mp hfld with ⟨bb, hbb, rfl⟩
    exact fmtF_length_16 10 _ (by norm_num) (by norm_num)
      (hfit aa bb haa (List.mem_range.mp hbb))
  refine ⟨by simp [dataLines, hf], rfl, ?_, ?_⟩
  · intro aa haa
    have hlen : (fieldsRow spec aa).length = sdir.length := by
      simp [fieldsRow, hd]
    refine ⟨hlen, hfld aa haa, ?_, ?_⟩
    · rw [List.length_flatten]
      have hrep : (fieldsRow spec aa).map List.length = List.replicate sdir.length 16 := by
        rw [List.eq_replicate_iff]
        constructor
        · simp [hlen]
        · intro b hb
          rcases List.mem_map.mp hb with ⟨fld, hfldm, rfl⟩
          exact hfld aa haa fld hfldm
      rw [hrep, List.sum_replicate, smul_eq_mul]
      ring
    · exact chunks_flatten 16 (by norm_num) _ (hfld aa haa)
  · intro locations waveTime
    rw [swan_sections freq spec locations waveTime (some sdir), dataBlock]

/-- A 1 x 1 density grid holding the value 1. -/
def unitMat : Mat2 := ⟨1, 1, fun _ _ => 1⟩

theorem swan_data_block_shape_witness :
    (unitMat.nrow = [(1 : ℚ)/20].length
      ∧ unitMat.ncol = [(0 : ℚ)].length
      ∧ (∀ aa bb, aa < unitMat.nrow → bb < unitMat.ncol → |unitMat.entry aa bb| ≤ 9999))
    ∧ ((dataLines unitMat).length = [(1 : ℚ)/20].length
      ∧ dataLines unitMat
          = (List.range unitMat.nrow).map (fun aa => (fieldsRow unitMat aa).flatten)
      ∧ (∀ aa, aa < unitMat.nrow →
          (fieldsRow unitMat aa).length = [(0 : ℚ)].length
          ∧ (∀ fld ∈ fieldsRow unitMat aa, fld.length = 16)
          ∧ ((fieldsRow unitMat aa).flatten).length = 16 * [(0 : ℚ)].length
          ∧ chunks 16 ((fieldsRow unitMat aa).flatten) = fieldsRow unitMat aa)
      ∧ (∀ locations waveTime,
          swan_write_boundary_spec [(1 : ℚ)/20] unitMat locations waveTime (some [(0 : ℚ)])
            = headerSection ++ locationsSection locations ++ rfreqSection [(1 : ℚ)/20]
              ++ ndirSection (some [(0 : ℚ)]) ++ quantSection
              ++ joinNL (dataLines unitMat))) :=
  ⟨⟨rfl, rfl, fun aa bb haa hbb => by norm_num [unitMat]⟩,
    swan_data_block_shape [(1 : ℚ)/20] [(0 : ℚ)] unitMat rfl rfl
      (fun aa bb haa hbb => by norm_num [unitMat])⟩

/-- C6 counterexample: the `LOCATIONS` line for the location (0, 10) is not
two 16-character fields back to back — the writer puts a space between the
two fields, so the line is 33 characters, not 32. -/
theorem locations_line_delimiter_cex :
    locLine ((0 : ℚ), (10 : ℚ)) ≠ fmtF 16 4 0 ++ fmtF 16 4 10
      ∧ (locLine ((0 : ℚ), (10 : ℚ))).length = 33
      ∧ (fmtF 16 4 (0 : ℚ) ++ fmtF 16 4 (10 : ℚ)).length = 32 := by
  have h0 : decRound 4 (0 : ℚ) = 0 := decRound_eq_int 4 0 0 (by norm_num)
  have h10 : decRound 4 (10 : ℚ) = 100000 := decRound_eq_int 4 10 100000 (by norm_num)
  refine ⟨?_, ?_, ?_⟩
  · rw [locLine, fmtF, fmtF, h0, h10]
    decide
  · rw [locLine, fmtF, fmtF, h0, h10]
    decide
  · rw [fmtF, fmtF, h0, h10]
    decide

/-- C6 (amended): data-block lines are fixed-width fields placed back to back
with no delimiter (column position recovers the fields), but each `LOCATIONS`
line is two 16-char/4-decimal fields separated by a single space character
(33 characters in all), not two abutting fields; field widths are exact for
values that fit (|value| at most 9999). -/
theorem fixed_width_lines (spec : Mat2) (p : ℚ × ℚ)
    (hfit : ∀ aa bb, aa < spec.nrow → bb < spec.ncol → |spec.entry aa bb| ≤ 9999)
    (hp1 : |p.1| ≤ 9999) (hp2 : |p.2| ≤ 9999) :
    (∀ aa, aa < spec.nrow →
        chunks 16 ((fieldsRow spec aa).flatten) = fieldsRow spec aa
        ∧ ∀ fld ∈ fieldsRow spec aa, fld.length = 16)
      ∧ locLine p = fmtF 16 4 p.1 ++ [' '] ++ fmtF 16 4 p.2
      ∧ (fmtF 16 4 p.1).length = 16
      ∧ (fmtF 16 4 p.2).length = 16
      ∧ (locLine p).length = 33 := by
  have hfld : ∀ aa, aa < spec.nrow → ∀ fld ∈ fieldsRow spec aa, fld.length = 16 := by
    intro aa haa fld hfld
    rcases List.mem_map.mp hfld with ⟨bb, hbb, rfl⟩
    exact fmtF_length_16 10 _ (by norm_num) (by norm_num)
      (hfit aa bb haa (List.mem_range.mp hbb))
  have h1 : (fmtF 16 4 p.1).length = 16 :=
    fmtF_length_16 4 p.1 (by norm_num) (by norm_num) hp1
  have h2 : (fmtF 16 4 p.2).length = 16 :=
    fmtF_length_16 4 p.2 (by norm_num) (by norm_num) hp2
  refine ⟨fun aa haa => ⟨chunks_flatten 16 (by norm_num) _ (hfld aa haa), hfld aa haa⟩,
    rfl, h1, h2, ?_⟩
  rw [locLine]
  simp only [List.length_append, h1, h2]
  rfl

theorem fixed_width_lines_witness :
    ((∀ aa bb, aa < unitMat.nrow → bb < unitMat.ncol → |unitMat.entry aa bb| ≤ 9999)
      ∧ |((0 : ℚ), (10 : ℚ)).1| ≤ 9999 ∧ |((0 : ℚ), (10 : ℚ)).2| ≤ 9999)
    ∧ ((∀ aa, aa < unitMat.nrow →
          chunks 16 ((fieldsRow unitMat aa).flatten) = fieldsRow unitMat aa
          ∧ ∀ fld ∈ fieldsRow unitMat aa, fld.length = 16)
      ∧ locLine ((0 : ℚ), (10 : ℚ))
          = fmtF 16 4 ((0 : ℚ), (10 : ℚ)).1 ++ [' '] ++ fmtF 16 4 ((0 : ℚ), (10 : ℚ)).2
      ∧ (fmtF 16 4 ((0 : ℚ), (10 : ℚ)).1).length = 16
      ∧ (fmtF 16 4 ((0 : ℚ), (10 : ℚ)).2).length = 16
      ∧ (locLine ((0 : ℚ), (10 : ℚ))).length = 33) :=
  ⟨⟨fun aa bb haa hbb => by norm_num [unitMat], by norm_num, by norm_num⟩,
    fixed_width_lines unitMat ((0 : ℚ), (10 : ℚ))
      (fun aa bb haa hbb => by norm_num [unitMat]) (by norm_num) (by norm_num)⟩

/-- C5 counterexample: for the location (0, 10.0001) — both values fit their
16-character/4-decimal fields — splitting the written `LOCATIONS` line into
consecutive fixed 16-character fields and parsing each does not recover the
coordinates to the written precision: the space the writer puts between the
two fields shifts the second field by one column (the split yields three
chunks, the second of which loses the last decimal digit). -/
theorem roundtrip_chunk_cex :
    (chunks 16 (locLine ((0 : ℚ), (100001 : ℚ)/10000))).map parseDec
      ≠ [roundTo 4 0, roundTo 4 ((100001 : ℚ)/10000)] := by
  intro h
  have hl : locLine ((0 : ℚ), (100001 : ℚ)/10000)
      = "          0.0000          10.0001".data := by
    rw [locLine, fmtF, fmtF, decRound_eq_int 4 0 0 (by norm_num),
      decRound_eq_int 4 ((100001 : ℚ)/10000) 100001 (by norm_num)]
    decide
  have hlen := congrArg List.length h
  rw [List.length_map, hl] at hlen
  have h3 : (chunks 16 ("          0.0000          10.0001".data)).length = 3 := by
    decide
  rw [h3] at hlen
  exact absurd hlen (by decide)

/-- C5 (amended): parsing written fields recovers the input values to the
written precision — 10 decimals for spectral density (by splitting each data
line into consecutive fixed 16-character fields), 8 for frequencies and 4
for directions (one field per line) — and for the `LOCATIONS` lines the
first coordinate occupies columns 1-16 but the second starts at column 18,
after the single space separator, so it is recovered from `drop 17`, not
from the second consecutive 16-character chunk. -/
theorem written_value_roundtrip (freq sdir : List ℚ) (spec : Mat2)
    (locations : List (ℚ × ℚ))
    (hfit : ∀ aa bb, aa < spec.nrow → bb < spec.ncol → |spec.entry aa bb| ≤ 9999)
    (hfitL : ∀ p ∈ locations, |p.1| ≤ 9999 ∧ |p.2| ≤ 9999) :
    (∀ aa, aa < spec.nrow →
        (chunks 16 ((fieldsRow spec aa).flatten)).map parseDec
          = (List.range spec.ncol).map (fun bb => roundTo 10 (spec.entry aa bb)))
      ∧ (∀ f ∈ freq, parseDec (fmtF 12 8 f) = roundTo 8 f)
      ∧ (∀ a ∈ sdir, parseDec (fmtF 16 4 a) = roundTo 4 a)
      ∧ (∀ p ∈ locations,
          (locLine p).take 16 = fmtF 16 4 p.1
          ∧ (locLine p).drop 17 = fmtF 16 4 p.2
          ∧ parseDec (fmtF 16 4 p.1) = roundTo 4 p.1
          ∧ parseDec (fmtF 16 4 p.2) = roundTo 4 p.2) := by
  refine ⟨?_, fun f _ => parseDec_fmtF 12 8 f, fun a _ => parseDec_fmtF 16 4 a, ?_⟩
  · intro aa haa
    have hfld : ∀ fld ∈ fieldsRow spec aa, fld.length = 16 := by
      intro fld hfld
      rcases List.mem_map.mp hfld with ⟨bb, hbb, rfl⟩
      exact fmtF_length_16 10 _ (by norm_num) (by norm_num)
        (hfit aa bb haa (List.mem_range.mp hbb))
    rw [chunks_flatten 16 (by norm_num) _ hfld, fieldsRow, List.map_map]
    apply List.map_congr_left
    intro bb _
    exact parseDec_fmtF 16 10 (spec.entry aa bb)
  · intro p hp
    have h1 : (fmtF 16 4 p.1).length = 16 :=
      fmtF_length_16 4 p.1 (by norm_num) (by norm_num) (hfitL p hp).1
    have h17 : (fmtF 16 4 p.1 ++ " ".data).length = 17 := by
      rw [List.length_append, h1]
      rfl
    refine ⟨?_, ?_, parseDec_fmtF 16 4 p.1, parseDec_fmtF 16 4 p.2⟩
    · rw [locLine]
      set f1 := fmtF 16 4 p.1 with hf1
      set f2 := fmtF 16 4 p.2 with hf2
      rw [List.append_assoc, ← h1, List.take_left]
    · rw [locLine]
      set f1 := fmtF 16 4 p.1 with hf1
      set f2 := fmtF 16 4 p.2 with hf2
      rw [← h17, List.drop_left]

theorem written_value_roundtrip_witness :
    ((∀ aa bb, aa < unitMat.nrow → bb < unitMat.ncol → |unitMat.entry aa bb| ≤ 9999)
      ∧ (∀ p ∈ [((0 : ℚ), (10 : ℚ))], |p.1| ≤ 9999 ∧ |p.2| ≤ 9999))
    ∧ ((∀ aa, aa < unitMat.nrow →
          (chunks 16 ((fieldsRow unitMat aa).flatten)).map parseDec
            = (List.range unitMat.ncol).map (fun bb => roundTo 10 (unitMat.entry aa bb)))
      ∧ (∀ f ∈ [(1 : ℚ)/20], parseDec (fmtF 12 8 f) = roundTo 8 f)
      ∧ (∀ a ∈ [(0 : ℚ)], parseDec (fmtF 16 4 a) = roundTo 4 a)
      ∧ (∀ p ∈ [((0 : ℚ), (10 : ℚ))],
          (locLine p).take 16 = fmtF 16 4 p.1
          ∧ (locLine p).drop 17 = fmtF 16 4 p.2
          ∧ parseDec (fmtF 16 4 p.1) = roundTo 4 p.1
          ∧ parseDec (fmtF 16 4 p.2) = roundTo 4 p.2)) :=
  ⟨⟨fun aa bb haa hbb => by norm_num [unitMat],
    by
      intro p hp
      rw [List.mem_singleton.mp hp]
      norm_num⟩,
    written_value_roundtrip [(1 : ℚ)/20] [(0 : ℚ)] unitMat [((0 : ℚ), (10 : ℚ))]
      (fun aa bb haa hbb => by norm_num [unitMat])
      (by
        intro p hp
        rw [List.mem_singleton.mp hp]
        norm_num)⟩

theorem flatten_fmtF_no_nl (d : Nat) (x : List ℚ) :
    '\n' ∉ (x.map (fun v => fmtF 16 d v)).flatten := by
  intro hc
  rcases List.mem_flatten.mp hc with ⟨fld, hfld, hcf⟩
  rcases List.mem_map.mp hfld with ⟨v, -, rfl⟩
  exact fmtF_no_newline 16 d v hcf

theorem row_fmtF_no_nl (d : Nat) (f : Nat → ℚ) (n : Nat) :
    '\n' ∉ ((List.range n).map (fun bb => fmtF 16 d (f bb))).flatten := by
  intro hc
  rcases List.mem_flatten.mp hc with ⟨fld, hfld, hcf⟩
  rcases List.mem_map.mp hfld with ⟨bb, -, rfl⟩
  exact fmtF_no_newline 16 d _ hcf

/-- C4 counterexample: in 1-D mode with `x = [0, 1]` and `z = [5]` (lengths 2
and 1), the single `x.grd` line holds `len(x) = 2` fields (33 characters
with its newline), not `len(z) = 1` field (17 characters) as claimed —
`x.grd` is driven by `len(x)`, not `len(z)`. -/
theorem write_bathy_xgrd_cex :
    (write_bathy_text (BathyIn.oneD [(0 : ℚ), 1] [(5 : ℚ)])).xgrd.length = 33
      ∧ ((([(5 : ℚ)].map (fun v => fmtF 16 4 v)).flatten ++ "\n".data).length = 17)
      ∧ ¬ (33 : Nat) = 17 := by
  have h0 : (fmtF 16 4 (0 : ℚ)).length = 16 :=
    fmtF_length_16 4 0 (by norm_num) (by norm_num) (by norm_num)
  have h1 : (fmtF 16 4 (1 : ℚ)).length = 16 :=
    fmtF_length_16 4 1 (by norm_num) (by norm_num) (by norm_num)
  have h5 : (fmtF 16 4 (5 : ℚ)).length = 16 :=
    fmtF_length_16 4 5 (by norm_num) (by norm_num) (by norm_num)
  refine ⟨?_, ?_, by decide⟩
  · simp [write_bathy_text, h0, h1]
  · simp [h5]

/-- C4 (amended: the 1-D `x.grd` line holds `len(x)` fields, which equals the
claimed `len(z)` only when the coordinate and depth arrays match): in 1-D
mode exactly the two text files `x.grd` and `z.dep` are produced (`y.grd`
absent), each a single newline-terminated line, `x.grd` with `len(x)` fields
and `z.dep` with `len(z)` fields; in 2-D mode all three text files are
produced, each with `z.shape[0]` lines of `z.shape[1]` fields. -/
theorem write_bathy_files (x z : List ℚ) (xm ym zm : Mat2) :
    ((write_bathy_text (BathyIn.oneD x z)).ygrd = none
      ∧ (write_bathy_text (BathyIn.oneD x z)).xgrd
          = joinNL [(x.map (fun v => fmtF 16 4 v)).flatten]
      ∧ (write_bathy_text (BathyIn.oneD x z)).zdep
          = joinNL [(z.map (fun v => fmtF 16 4 v)).flatten]
      ∧ (x.map (fun v => fmtF 16 4 v)).length = x.length
      ∧ (z.map (fun v => fmtF 16 4 v)).length = z.length
      ∧ ((write_bathy_text (BathyIn.oneD x z)).xgrd).count '\n' = 1
      ∧ ((write_bathy_text (BathyIn.oneD x z)).zdep).count '\n' = 1)
    ∧ ((write_bathy_text (BathyIn.twoD xm ym zm)).ygrd
          = some (joinNL ((List.range zm.nrow).map (fun aa =>
              ((List.range zm.ncol).map (fun bb => fmtF 16 4 (ym.entry aa bb))).flatten)))
      ∧ (write_bathy_text (BathyIn.twoD xm ym zm)).xgrd
          = joinNL ((List.range zm.nrow).map (fun aa =>
              ((List.range zm.ncol).map (fun bb => fmtF 16 4 (xm.entry aa bb))).flatten))
      ∧ (write_bathy_text (BathyIn.twoD xm ym zm)).zdep
          = joinNL ((List.range zm.nrow).map (fun aa =>
              ((List.range zm.ncol).map (fun bb => fmtF 16 4 (zm.entry aa bb))).flatten))
      ∧ ((write_bathy_text (BathyIn.twoD xm ym zm)).xgrd).count '\n' = zm.nrow
      ∧ ((write_bathy_text (BathyIn.twoD xm ym zm)).zdep).count '\n' = zm.nrow
      ∧ ∀ aa, ((List.range zm.ncol).map (fun bb => fmtF 16 4 (zm.entry aa bb))).length
          = zm.ncol) := by
  have h2d : ∀ m : Mat2, ((List.range zm.nrow).map (fun aa =>
      ((List.range zm.ncol).map (fun bb => fmtF 16 4 (m.entry aa bb))).flatten
      ++ "\n".data)).flatten
      = joinNL ((List.range zm.nrow).map (fun aa =>
          ((List.range zm.ncol).map (fun bb => fmtF 16 4 (m.entry aa bb))).flatten)) := by
    intro m
    rw [joinNL, List.map_map]
    rfl
  have hcount1 : ∀ v : List ℚ, ((v.map (fun w => fmtF 16 4 w)).flatten
      ++ "\n".data).count '\n' = 1 := by
    intro v
    have := count_nl_joinNL [(v.map (fun w => fmtF 16 4 w)).flatten]
      (by
        intro l hl
        rw [List.mem_singleton.mp hl]
        exact flatten_fmtF_no_nl 4 v)
    rwa [joinNL_singleton] at this
  have hcount2 : ∀ m : Mat2, (joinNL ((List.range zm.nrow).map (fun aa =>
      ((List.range zm.ncol).map (fun bb => fmtF 16 4 (m.entry aa bb))).flatten))).count '\n'
      = zm.nrow := by
    intro m
    rw [count_nl_joinNL]
    · simp
    · intro l hl
      rcases List.mem_map.mp hl with ⟨aa, -, rfl⟩
      exact row_fmtF_no_nl 4 (m.entry aa) zm.ncol
  refine ⟨⟨rfl, by rw [joinNL_singleton]; rfl, by rw [joinNL_singleton]; rfl, by simp,
      by simp, hcount1 x, hcount1 z⟩,
    ?_, ?_, ?_, ?_, ?_, fun aa => by simp⟩
  · show some _ = some _
    rw [h2d ym]
  · show _ = _
    rw [show (write_bathy_text (BathyIn.twoD xm ym zm)).xgrd
      = ((List.range zm.nrow).map (fun aa =>
        ((List.range zm.ncol).map (fun bb => fmtF 16 4 (xm.entry aa bb))).flatten
        ++ "\n".data)).flatten from rfl, h2d xm]
  · rw [show (write_bathy_text (BathyIn.twoD xm ym zm)).zdep
      = ((List.range zm.nrow).map (fun aa =>
        ((List.range zm.ncol).map (fun bb => fmtF 16 4 (zm.entry aa bb))).flatten
        ++ "\n".data)).flatten from rfl, h2d zm]
  · rw [show (write_bathy_text (BathyIn.twoD xm ym zm)).xgrd
      = ((List.range zm.nrow).map (fun aa =>
        ((List.range zm.ncol).map (fun bb => fmtF 16 4 (xm.entry aa bb))).flatten
        ++ "\n".data)).flatten from rfl, h2d xm]
    exact hcount2 xm
  · rw [show (write_bathy_text (BathyIn.twoD xm ym zm)).zdep
      = ((List.range zm.nrow).map (fun aa =>
        ((List.range zm.ncol).map (fun bb => fmtF 16 4 (zm.entry aa bb))).flatten
        ++ "\n".data)).flatten from rfl, h2d zm]
    exact hcount2 zm

/-- C8 (code bug): the grid-dimension report at the end of `write_bathy`
reads `xi_rho`, which is assigned only inside the `if ncsave:` branch.  With
`ncsave = False` every call raises `NameError` instead of completing and
reporting `nx`/`ny`; with `ncsave = True` the report is produced as the claim
describes (`nx = columns - 1`, `ny = rows - 1` or 0). -/
theorem bathy_report_nameerror :
    (∀ b, write_bathy_report b false
        = Except.error "NameError: name xi_rho is not defined".data)
      ∧ write_bathy_report (BathyIn.oneD [(0 : ℚ)] [(1 : ℚ)]) false
          = Except.error "NameError: name xi_rho is not defined".data
      ∧ write_bathy_report (BathyIn.oneD [(0 : ℚ)] [(1 : ℚ)]) true = Except.ok (0, 0)
      ∧ (∀ x y z : Mat2, write_bathy_report (BathyIn.twoD x y z) true
          = Except.ok ((z.ncol : ℤ) - 1, (z.nrow : ℤ) - 1))
      ∧ (∀ x z : List ℚ, write_bathy_report (BathyIn.oneD x z) true
          = Except.ok ((z.length : ℤ) - 1, 0)) := by
  refine ⟨fun b => ?_, rfl, ?_, fun x y z => rfl, fun x z => rfl⟩
  · cases b <;> rfl
  · rfl

/-! ### C9: file-handle release -/

/-- An empty 0 x 0 density grid. -/
def zeroMat : Mat2 := ⟨0, 0, fun _ _ => 0⟩

/-- Whether the handle carried by the writer's outcome is still open. -/
def resultHandleOpen : Except Handle Handle → Bool
  | Except.error h => h.isOpen
  | Except.ok h => h.isOpen

/-- Whether the writer exited by raising. -/
def resultIsError : Except Handle Handle → Bool
  | Except.error _ => true
  | Except.ok _ => false

/-- C9 counterexample: calling the swan writer with a malformed location
matrix (a row holding a single number) raises `IndexError` at
`locations[0, 1]` partway through writing, and the call exits with the file
handle still open — there is no try/finally or with-block around the writes. -/
theorem handle_left_open_cex :
    resultIsError (swan_write_handle [] zeroMat [[(1 : ℚ)]] none) = true
      ∧ resultHandleOpen (swan_write_handle [] zeroMat [[(1 : ℚ)]] none) = true :=
  ⟨rfl, rfl⟩

theorem locLoop_ok : ∀ (l : List (List ℚ)), (∀ row ∈ l, 2 ≤ row.length) →
    ∀ h : Handle, ∃ h', locLoop h l = Except.ok h' := by
  intro l
  induction l with
  | nil => exact fun _ h => ⟨h, rfl⟩
  | cons row rest ih =>
    intro hrows h
    have h2 : 2 ≤ row.length := hrows row (by simp)
    match row, h2 with
    | a :: b :: t, _ =>
      exact ih (fun r hr => hrows r (by simp [hr])) _


/-- Handle-instrumented transcription of the non-swan (Instat-6) branch of
`xbeach_pre.write_boundary_spec` (lines 191-214): `open` at entry, the
frequency, optional direction and data-block writes, `close` as the final
statement.  This branch indexes only its own arrays' lengths and `spec`'s
shape, so it has no raising access and always reaches the close. -/
def xbeach_generic_write_handle (freq : List ℚ) (spec : Mat2)
    (sdir : Option (List ℚ)) : Handle :=
  let h := Handle.mk true []
  let h := hwrite h (fmtF 12 0 (freq.length : ℚ) ++ "\n".data)
  let h := freq.foldl (fun h f => hwrite h (fmtF 12 8 f ++ "\n".data)) h
  let h := match sdir with
    | some sd =>
      let h := hwrite h (fmtF 12 0 (sd.length : ℚ) ++ "\n".data)
      sd.foldl (fun h a => hwrite h (fmtF 16 4 a ++ "\n".data)) h
    | none => h
  let h := (List.range spec.nrow).foldl (fun h aa =>
    hwrite ((List.range spec.ncol).foldl
      (fun h bb => hwrite h (fmtF 16 10 (spec.entry aa bb))) h) "\n".data) h
  Handle.mk false h.content

/-- The handles a `write_bathy` call leaves behind: the `x.grd` handle, the
`y.grd` handle when 2-D, and the `z.dep` handle. -/
structure BathyHandles where
  hx : Handle
  hy : Option Handle
  hz : Handle

/-- Handle-instrumented transcription of the text-file part of
`xbeach_pre.write_bathy` (lines 55-92).  In 2-D mode the three handles are
opened together, written row-major over `z.shape`, and all closed at the end
(the interleaved writes of the source touch each handle in this same per-file
order).  In 1-D mode one handle is opened for `z.dep`, written and closed,
then one for `x.grd`, written and closed.  Neither mode has a raising access
(each loop is bounded by the array it indexes), so every call reaches its
closes. -/
def write_bathy_handles : BathyIn → BathyHandles
  | BathyIn.oneD x z =>
    let fid := Handle.mk true []
    let fid := z.foldl (fun h v => hwrite h (fmtF 16 4 v)) fid
    let fid := hwrite fid "\n".data
    let fidz := Handle.mk false fid.content
    let fid := Handle.mk true []
    let fid := x.foldl (fun h v => hwrite h (fmtF 16 4 v)) fid
    let fid := hwrite fid "\n".data
    let fidx := Handle.mk false fid.content
    ⟨fidx, none, fidz⟩
  | BathyIn.twoD x y z =>
    let fidx := Handle.mk true []
    let fidy := Handle.mk true []
    let fidz := Handle.mk true []
    let fidx := (List.range z.nrow).foldl (fun h aa =>
      hwrite ((List.range z.ncol).foldl
        (fun h bb => hwrite h (fmtF 16 4 (x.entry aa bb))) h) "\n".data) fidx
    let fidy := (List.range z.nrow).foldl (fun h aa =>
      hwrite ((List.range z.ncol).foldl
        (fun h bb => hwrite h (fmtF 16 4 (y.entry aa bb))) h) "\n".data) fidy
    let fidz := (List.range z.nrow).foldl (fun h aa =>
      hwrite ((List.range z.ncol).foldl
        (fun h bb => hwrite h (fmtF 16 4 (z.entry aa bb))) h) "\n".data) fidz
    ⟨Handle.mk false fidx.content, some (Handle.mk false fidy.content),
      Handle.mk false fidz.content⟩

/-- C9 (amended): every writer closes every file handle it opened before
returning on the normal completion path — the swan boundary-spectrum writer
whenever its location matrix has two columns per row (the xbeach spectrum
writer in swan mode delegates to it), the Instat-6 xbeach spectrum writer on
every call, and `write_bathy` on every call in both modes — but not on every
exit path: a mid-write error propagates with the handle left open (see the
counterexample). -/
theorem handle_closed_normal_path (freq : List ℚ) (spec : Mat2)
    (locations : List (List ℚ)) (sdir : Option (List ℚ)) (b : BathyIn)
    (hrows : ∀ row ∈ locations, 2 ≤ row.length) :
    (∃ h, swan_write_handle freq spec locations sdir = Except.ok h
        ∧ h.isOpen = false)
      ∧ (xbeach_generic_write_handle freq spec sdir).isOpen = false
      ∧ (write_bathy_handles b).hx.isOpen = false
      ∧ (write_bathy_handles b).hz.isOpen = false
      ∧ (∀ hy, (write_bathy_handles b).hy = some hy → hy.isOpen = false) := by
  refine ⟨?_, rfl, ?_, ?_, ?_⟩
  · obtain ⟨h', hh⟩ := locLoop_ok locations hrows
      (hwrite (hwrite (hwrite ⟨true, []⟩ "SWAN 1\n".data) "LOCATIONS\n".data)
        (fmtF 12 0 (locations.length : ℚ) ++ "\n".data))
    rw [swan_write_handle]
    rw [hh]
    exact ⟨_, rfl, rfl⟩
  · cases b <;> rfl
  · cases b <;> rfl
  · intro hy hhy
    cases b with
    | oneD x z => simp [write_bathy_handles] at hhy
    | twoD x y z =>
      simp only [write_bathy_handles, Option.some.injEq] at hhy
      rw [← hhy]

theorem handle_closed_normal_path_witness :
    (∀ row ∈ [[(0 : ℚ), 10]], 2 ≤ row.length)
      ∧ ((∃ h, swan_write_handle [] zeroMat [[(0 : ℚ), 10]] none = Except.ok h
            ∧ h.isOpen = false)
        ∧ (xbeach_generic_write_handle [] zeroMat none).isOpen = false
        ∧ (write_bathy_handles (BathyIn.oneD [(0 : ℚ)] [(1 : ℚ)])).hx.isOpen = false
        ∧ (write_bathy_handles (BathyIn.oneD [(0 : ℚ)] [(1 : ℚ)])).hz.isOpen = false
        ∧ (∀ hy, (write_bathy_handles (BathyIn.oneD [(0 : ℚ)] [(1 : ℚ)])).hy = some hy
            → hy.isOpen = false)) :=
  ⟨by
      intro row hr
      rw [List.mem_singleton.mp hr]
      decide,
    handle_closed_normal_path [] zeroMat [[(0 : ℚ), 10]] none
      (BathyIn.oneD [(0 : ℚ)] [(1 : ℚ)])
      (by
        intro row hr
        rw [List.mem_singleton.mp hr]
        decide)⟩

/-- C10: the writers only read their input arrays — every call leaves the
caller's arrays (frequencies, spectrum, locations, directions, coordinates
and depths, the `bathy` field of the bathymetry world) exactly as they were —
and their only effects are the produced output files (the entry at the output
path(s); every other path keeps its previous content) and console messages. -/
theorem writers_frame (outfile outfld : List Char) (w : SpecWorld) (wb : BathyWorld)
    (swan ncsave : Bool) :
    ((swan_write_world outfile w).freq = w.freq
      ∧ (swan_write_world outfile w).spec = w.spec
      ∧ (swan_write_world outfile w).locations = w.locations
      ∧ (swan_write_world outfile w).waveTime = w.waveTime
      ∧ (swan_write_world outfile w).sdir = w.sdir
      ∧ (swan_write_world outfile w).console = w.console
      ∧ (swan_write_world outfile w).fs = fun p => if p = outfile
          then some (swan_write_boundary_spec w.freq w.spec w.locations w.waveTime w.sdir)
          else w.fs p)
    ∧ ((xbeach_spec_world outfile swan w).freq = w.freq
      ∧ (xbeach_spec_world outfile swan w).spec = w.spec
      ∧ (xbeach_spec_world outfile swan w).locations = w.locations
      ∧ (xbeach_spec_world outfile swan w).waveTime = w.waveTime
      ∧ (xbeach_spec_world outfile swan w).sdir = w.sdir
      ∧ (xbeach_spec_world outfile swan w).console
          = w.console ++ [if swan then "Writting swan formatted input, Instat = 5".data
              else "Writing 2D spectrum for Instat = 6".data]
      ∧ (xbeach_spec_world outfile swan w).fs = fun p => if p = outfile
          then some (xbeach_write_boundary_spec w.freq w.spec w.locations w.waveTime
            w.sdir swan)
          else w.fs p)
    ∧ ((write_bathy_world outfld ncsave wb).1.bathy = wb.bathy
      ∧ (write_bathy_world outfld ncsave wb).1.fs = (fun p =>
          if p = outfld ++ "x.grd".data then some (write_bathy_text wb.bathy).xgrd
          else if p = outfld ++ "y.grd".data then
            (match (write_bathy_text wb.bathy).ygrd with
              | some c => some c
              | none => wb.fs p)
          else if p = outfld ++ "z.dep".data then some (write_bathy_text wb.bathy).zdep
          else wb.fs p)
      ∧ (write_bathy_world outfld ncsave wb).1.nc = (if ncsave then
            (fun p => if p = outfld ++ "depth.nc".data then some wb.bathy else wb.nc p)
          else wb.nc)
      ∧ (write_bathy_world outfld ncsave wb).2 = write_bathy_report wb.bathy ncsave) :=
  ⟨⟨rfl, rfl, rfl, rfl, rfl, rfl, rfl⟩, ⟨rfl, rfl, rfl, rfl, rfl, rfl, rfl⟩,
    ⟨rfl, rfl, rfl, rfl⟩⟩
